import Mathlib

/-!
Verification development for `workspace_monitor.py`.

The Python source is shallowly embedded: pure functions become Lean functions,
the mtime-keyed session cache becomes explicit state passing, fallible paths
return `Except Unit` (an `.error ()` models an uncaught Python exception
escaping the function), and a log line is represented by the result of
`json.loads` on it (`none` models a `json.JSONDecodeError`).  Strings are
handled as `List Char`; the ASCII whitespace set stands in for Python's
whitespace class (all inputs exercised here are ASCII).
-/

mutual

/-- Parsed JSON value, as produced by `json.loads` for one log line.  Objects
carry their fields as a `JsonFields` spine with distinct keys (the shape
`json.loads` yields). -/
inductive Json where
  | null : Json
  | bool : Bool → Json
  | num : Int → Json
  | str : String → Json
  | arr : JsonList → Json
  | obj : JsonFields → Json
deriving DecidableEq

/-- Spine of a JSON array. -/
inductive JsonList where
  | nil : JsonList
  | cons : Json → JsonList → JsonList
deriving DecidableEq

/-- Spine of a JSON object: key/value pairs in insertion order. -/
inductive JsonFields where
  | fnil : JsonFields
  | fcons : String → Json → JsonFields → JsonFields
deriving DecidableEq

end

/-- Builds an object from a plain list of fields (literal convenience). -/
def fieldsOf : List (String × Json) → JsonFields
  | [] => .fnil
  | (k, v) :: rest => .fcons k v (fieldsOf rest)

/-- Object literal from a list of fields. -/
def jsonObj (l : List (String × Json)) : Json :=
  .obj (fieldsOf l)

/-- Python truthiness of a JSON value (`bool(x)`). -/
def jTruthy : Json → Bool
  | .null => false
  | .bool b => b
  | .num n => n != 0
  | .str s => s != ""
  | .arr .nil => false
  | .arr (.cons _ _) => true
  | .obj .fnil => false
  | .obj (.fcons _ _ _) => true

/-- Lookup in an object's field spine; `dict.get(key)` returns `None`
(modelled `.null`) when the key is absent. -/
def jGet : JsonFields → String → Json
  | .fnil, _ => .null
  | .fcons k v rest, key => if k = key then v else jGet rest key

/-- The `data.get(key)` access for a value already known to be a dict. -/
def jGetD : Json → String → Json
  | .obj kvs, key => jGet kvs key
  | _, _ => .null

/-- The `isinstance(x, dict)` test. -/
def jIsObj : Json → Bool
  | .obj _ => true
  | _ => false

/-- Whether a Python value of this JSON shape is hashable (usable as a dict
key); lists and dicts are not. -/
def jHashable : Json → Bool
  | .arr _ => false
  | .obj _ => false
  | _ => true

/-- Numeric reading of a JSON value: `x / 1000` succeeds for numbers and
bools (Python bools are ints); any other type raises `TypeError`, which the
source catches around the timestamp conversion.  Timestamps are integer
milliseconds per the history schema. -/
def jNumVal : Json → Option Int
  | .num n => some n
  | .bool b => some (if b then 1 else 0)
  | _ => none

/-- ASCII instances of Python's whitespace class (space, tab, LF, CR, VT, FF). -/
def isSpaceChar (c : Char) : Bool :=
  c = ' ' || c = '\t' || c = '\n' || c = '\r' || c = '\x0b' || c = '\x0c'

/-- Python `str.strip()`: drop leading and trailing whitespace. -/
def pyStrip (l : List Char) : List Char :=
  ((l.dropWhile isSpaceChar).reverse.dropWhile isSpaceChar).reverse

/-- Helper for `pySplitWs`: accumulates the current word (reversed). -/
def pySplitAux : List Char → List Char → List (List Char)
  | [], cur => if cur.isEmpty then [] else [cur.reverse]
  | c :: rest, cur =>
    if isSpaceChar c then
      if cur.isEmpty then pySplitAux rest [] else cur.reverse :: pySplitAux rest []
    else pySplitAux rest (c :: cur)

/-- Python `str.split()` with no arguments: split on whitespace runs,
discarding empty pieces. -/
def pySplitWs (l : List Char) : List (List Char) :=
  pySplitAux l []

/-- Python `' '.join(words)`. -/
def joinWords : List (List Char) → List Char
  | [] => []
  | [w] => w
  | w :: ws => w ++ ' ' :: joinWords ws

/-- Whether `needle` is a prefix of `hay` (Boolean). -/
def leadsList : List Char → List Char → Bool
  | [], _ => true
  | _ :: _, [] => false
  | a :: as, b :: bs => a = b && leadsList as bs

/-- Python `needle in hay` substring test. -/
def occursIn (needle : List Char) : List Char → Bool
  | [] => leadsList needle []
  | c :: rest => leadsList needle (c :: rest) || occursIn needle rest

/-- First character of a tag name: `[a-zA-Z]`. -/
def isAlphaCh (c : Char) : Bool :=
  ('a' ≤ c && c ≤ 'z') || ('A' ≤ c && c ≤ 'Z')

/-- Subsequent tag-name characters: `[a-zA-Z0-9-]`. -/
def isNameCh (c : Char) : Bool :=
  isAlphaCh c || ('0' ≤ c && c ≤ '9') || c = '-'

/-- Attempts the open-tag regex at the head of the list — the pattern from
line 151 of the source without its lookahead.  A match is a literal angle
bracket, an alphabetic first name character, further name characters, then
either a direct closing bracket, or one whitespace character followed by a
run of non-closing-bracket characters and the closing bracket (the optional
attribute group).  Returns the suffix after the consumed match.  Greedy
matching is exact here: a shorter name leaves a name character in next
position, which can start neither alternative. -/
def matchOpenAt : List Char → Option (List Char)
  | '<' :: c :: rest =>
    if isAlphaCh c then
      match rest.dropWhile isNameCh with
      | '>' :: rem => some rem
      | d :: ds =>
        if isSpaceChar d then
          match ds.dropWhile (fun x => x ≠ '>') with
          | '>' :: rem => some rem
          | _ => none
        else none
      | [] => none
    else none
  | _ => none

/-- The negative lookahead of the open-tag pattern: the match must not be
followed immediately by the two characters starting a closing tag. -/
def startsCloser : List Char → Bool
  | '<' :: '/' :: _ => true
  | _ => false

/-- Scanning loop of `re.findall` for the open-tag pattern, fuelled for
structural termination (a successful match consumes at least three
characters, so fuel equal to the string length always suffices).  On a match
whose lookahead fails the scan advances one character, as `re.findall` does
after a failed attempt at a position. -/
def countOpenAux : Nat → List Char → Nat
  | 0, _ => 0
  | _, [] => 0
  | fuel + 1, c :: rest =>
    match matchOpenAt (c :: rest) with
    | some rem =>
      if startsCloser rem then countOpenAux fuel rest else 1 + countOpenAux fuel rem
    | none => countOpenAux fuel rest

/-- Number of open-tag matches in the content (line 151 of the source). -/
def countOpenTags (l : List Char) : Nat :=
  countOpenAux l.length l

/-- Attempts the close-tag regex at the head of the list
(line 152 of the source). -/
def matchCloseAt : List Char → Option (List Char)
  | '<' :: '/' :: c :: rest =>
    if isAlphaCh c then
      match rest.dropWhile isNameCh with
      | '>' :: rem => some rem
      | _ => none
    else none
  | _ => none

/-- Scanning loop of `re.findall` for the close-tag pattern, fuelled. -/
def countCloseAux : Nat → List Char → Nat
  | 0, _ => 0
  | _, [] => 0
  | fuel + 1, c :: rest =>
    match matchCloseAt (c :: rest) with
    | some rem => 1 + countCloseAux fuel rem
    | none => countCloseAux fuel rest

/-- Number of close-tag matches in the content (line 152 of the source). -/
def countCloseTags (l : List Char) : Nat :=
  countCloseAux l.length l

/-- The fixed sentinel marker substrings skipped by the filter
(line 144 of the source). -/
def skipTags : List (List Char) :=
  ["<command-name>".data, "<local-command-stdout>".data, "<system-reminder>".data,
   "<task-notification>".data, "<task-id>".data, "<output-file>".data]

/-- Truncation step of the filter (lines 160-162): contents longer than the
configured character cap are cut to the cap and get an ellipsis marker. -/
def truncOut (maxChars : Nat) (l : List Char) : String :=
  if l.length > maxChars then (l.take maxChars).asString ++ "..." else l.asString

/-- Content pipeline of `parse_user_message` after the structural checks
(lines 138-163 of the source): reject stripped-empty content, content holding
a sentinel marker, and content whose open-tag count differs from its
close-tag count; otherwise collapse whitespace runs to single spaces and
truncate to the character cap. -/
def acceptContent (maxChars : Nat) (content : List Char) : Option String :=
  if content.isEmpty then none
  else if skipTags.any (fun t => occursIn t content) then none
  else if countOpenTags content ≠ countCloseTags content then none
  else some (truncOut maxChars (joinWords (pySplitWs content)))

/-- The per-line prompt filter, `parse_user_message` (lines 98-163 of the
source).  The input is the `json.loads` result of the stripped line (`none`
models a decode error, which the source catches and maps to `None`).  The
`.error ()` outcome models the uncaught `AttributeError` raised by
`data.get(...)` when the parsed line is not an object: the source catches
only `json.JSONDecodeError` here, and its callers catch only `OSError` and
`IOError`. -/
def parse_user_message (maxChars : Nat) (line : Option Json) : Except Unit (Option String) :=
  match line with
  | none => .ok none
  | some data =>
    match data with
    | .obj _ =>
      if jGetD data "type" ≠ .str "user" then .ok none
      else if jTruthy (jGetD data "isMeta") then .ok none
      else
        let message := jGetD data "message"
        if !jTruthy message || !jIsObj message then .ok none
        else if jGetD message "role" ≠ .str "user" then .ok none
        else
          match jGetD message "content" with
          | .str content => .ok (acceptContent maxChars (pyStrip content.data))
          | _ => .ok none
    | _ => .error ()

deriving instance DecidableEq for Except

/-- Outcome of opening and draining a session file: `openFail` models an
`OSError` on open; `content lines midFail` models a file delivering `lines`
(each given by its `json.loads` result), with `midFail` meaning the read of
the following line raises an `OSError`. -/
inductive ReadOutcome where
  | openFail : ReadOutcome
  | content : List (Option Json) → Bool → ReadOutcome
deriving DecidableEq

/-- Loop body of `extract_prompts_from_session` (lines 174-180 of the
source): pull a line, break once the collected count reaches the limit,
otherwise filter the line and keep a truthy result.  `k` is the number of
prompts collected so far (the `len(prompts)` of the source); the returned
flag records whether the loop exited through `break`, in which case the next
line is never pulled from the file.  A filter crash propagates. -/
def extractLoop (maxChars : Nat) (max_prompts : Nat) :
    List (Option Json) → Nat → Except Unit (List String × Bool)
  | [], _ => .ok ([], false)
  | l :: rest, k =>
    if k ≥ max_prompts then .ok ([], true)
    else
      match parse_user_message maxChars l with
      | .error e => .error e
      | .ok none => extractLoop maxChars max_prompts rest k
      | .ok (some p) =>
        if p = "" then extractLoop maxChars max_prompts rest k
        else
          match extractLoop maxChars max_prompts rest (k + 1) with
          | .error e => .error e
          | .ok (ps, b) => .ok (p :: ps, b)

/-- The session extractor, `extract_prompts_from_session` (lines 166-184 of
the source).  Returns the collected prompts plus a flag telling whether a
warning was logged: an open failure and a mid-read failure are caught and
logged, but a mid-read failure is only ever raised when the loop actually
pulls past the delivered lines (not when it broke early). -/
def extract_prompts_from_session (maxChars : Nat) (file : ReadOutcome)
    (max_prompts : Nat) : Except Unit (List String × Bool) :=
  match file with
  | .openFail => .ok ([], true)
  | .content lines midFail =>
    match extractLoop maxChars max_prompts lines 0 with
    | .error e => .error e
    | .ok (ps, brokeEarly) => .ok (ps, !brokeEarly && midFail)

/-- Association-list lookup, modelling a Python dict read. -/
def alistGet {κ β : Type} [DecidableEq κ] : List (κ × β) → κ → Option β
  | [], _ => none
  | (k, v) :: rest, key => if k = key then some v else alistGet rest key

/-- Association-list write, modelling a Python dict write: an existing key
keeps its position, a new key is appended (insertion order). -/
def alistSet {κ β : Type} [DecidableEq κ] : List (κ × β) → κ → β → List (κ × β)
  | [], key, v => [(key, v)]
  | (k, w) :: rest, key, v =>
    if k = key then (key, v) :: rest else (k, w) :: alistSet rest key v

/-- A session file as the cache sees it: its stem (filename without
extension, used as the cache key at line 70 of the source), the result of
`stat()` (`none` models an `OSError`, `some m` the modification timestamp,
an opaque value compared only for equality), and its read outcome. -/
structure PFile where
  stem : String
  stat : Option Int
  content : ReadOutcome
deriving DecidableEq

/-- Cache state of `SessionCache`: stem-keyed map to (mtime, prompts). -/
abbrev Cache := List (String × (Int × List String))

/-- The memoising lookup `SessionCache.get_prompts` (lines 68-84 of the
source), with the cache state passed explicitly.  Returns the prompts, the
new cache state, and whether `extract_prompts_from_session` was invoked. -/
def SessionCache.get_prompts (maxChars : Nat) (cache : Cache) (session_file : PFile)
    (max_prompts : Nat) : Except Unit (List String × Cache × Bool) :=
  match session_file.stat with
  | none => .ok ([], cache, false)
  | some current_mtime =>
    let doExtract : Unit → Except Unit (List String × Cache × Bool) := fun _ =>
      match extract_prompts_from_session maxChars session_file.content max_prompts with
      | .error e => .error e
      | .ok (prompts, _) =>
        .ok (prompts, alistSet cache session_file.stem (current_mtime, prompts), true)
    match alistGet cache session_file.stem with
    | some (cached_mtime, cached_prompts) =>
      if cached_mtime = current_mtime then .ok (cached_prompts, cache, false)
      else doExtract ()
    | none => doExtract ()

/-- Session record built while scanning the history log (the `SessionInfo`
dataclass of the source).  `last_updated` keeps the record's timestamp in
epoch milliseconds: `datetime.fromtimestamp(ms / 1000)` is strictly monotone
in `ms`, so datetime comparisons are modelled by integer comparisons. -/
structure SessionInfo where
  session_id : Json
  project_path : Json
  last_updated : Int
  prompts : List String
deriving DecidableEq

/-- Environment of the history scan: `dateOf ms` is the local calendar date
of `datetime.fromtimestamp(ms / 1000)`, `today` the date at scan time, and
`tsOk ms` whether the timestamp conversion succeeds (its `ValueError` /
`TypeError` is caught and skips the record). -/
structure ScanEnv where
  dateOf : Int → Int
  today : Int
  tsOk : Int → Bool

/-- Processing of one history line (lines 214-245 of the source): skip
unparseable lines, records with a falsy timestamp/project/sessionId, records
whose timestamp cannot be converted, and records not dated today; then
deduplicate by session id keeping the record with the strictly later
timestamp.  `.error ()` models an uncaught exception: `data.get(...)` on a
non-dict line raises `AttributeError`, and the dict-membership test hashing
an unhashable session id raises `TypeError`. -/
def scanLine (env : ScanEnv) (st : List (Json × SessionInfo)) (line : Option Json) :
    Except Unit (List (Json × SessionInfo)) :=
  match line with
  | none => .ok st
  | some data =>
    match data with
    | .obj _ =>
      let timestamp_ms := jGetD data "timestamp"
      let project := jGetD data "project"
      let session_id := jGetD data "sessionId"
      if !(jTruthy timestamp_ms && jTruthy project && jTruthy session_id) then .ok st
      else
        match jNumVal timestamp_ms with
        | none => .ok st
        | some n =>
          if !env.tsOk n then .ok st
          else if env.dateOf n ≠ env.today then .ok st
          else if !jHashable session_id then .error ()
          else
            match alistGet st session_id with
            | none => .ok (alistSet st session_id ⟨session_id, project, n, []⟩)
            | some old =>
              if n > old.last_updated then
                .ok (alistSet st session_id ⟨session_id, project, n, []⟩)
              else .ok st
    | _ => .error ()

/-- Full pass of the dedup loop over the history lines, threading the
session-id-keyed map. -/
def scanHist (env : ScanEnv) : List (Option Json) → List (Json × SessionInfo) →
    Except Unit (List (Json × SessionInfo))
  | [], st => .ok st
  | l :: ls, st =>
    match scanLine env st l with
    | .error e => .error e
    | .ok st' => scanHist env ls st'

/-- Grouping phase (lines 250-255 of the source): append each surviving
record to its project's list, projects in first-appearance order.  Hashing an
unhashable project value raises (`.error ()`). -/
def groupProjects : List SessionInfo → List (Json × List SessionInfo) →
    Except Unit (List (Json × List SessionInfo))
  | [], gs => .ok gs
  | s :: rest, gs =>
    if !jHashable s.project_path then .error ()
    else
      match alistGet gs s.project_path with
      | none => groupProjects rest (gs ++ [(s.project_path, [s])])
      | some l => groupProjects rest (alistSet gs s.project_path (l ++ [s]))

/-- Stable descending insertion by `last_updated`: a record moves ahead of
another exactly when its timestamp is strictly later, as Python's stable
`sort(..., reverse=True)` does. -/
def insertDesc (x : SessionInfo) : List SessionInfo → List SessionInfo
  | [] => [x]
  | y :: ys =>
    if x.last_updated > y.last_updated then x :: y :: ys else y :: insertDesc x ys

/-- Stable descending sort by `last_updated` (line 259 of the source). -/
def sortDesc (l : List SessionInfo) : List SessionInfo :=
  l.foldl (fun acc x => insertDesc x acc) []

/-- State of the history log: absent (a warning is logged and the scan
returns the empty mapping), or present with its delivered lines.  A mid-read
failure is logged and the scan continues with the lines read so far, so it is
represented by the shorter delivered list. -/
inductive HistOutcome where
  | absent : HistOutcome
  | content : List (Option Json) → HistOutcome

/-- The history scanner `get_today_sessions` (lines 199-262 of the source):
dedup today's records by session id, group them by project, and cap each
project's list to the three records with the latest timestamps, sorted
descending.  `MAX_SESSIONS_PER_PROJECT` is 3 in the source. -/
def get_today_sessions (env : ScanEnv) : HistOutcome →
    Except Unit (List (Json × List SessionInfo))
  | .absent => .ok []
  | .content lines =>
    match scanHist env lines [] with
    | .error e => .error e
    | .ok st =>
      match groupProjects (st.map Prod.snd) [] with
      | .error e => .error e
      | .ok gs => .ok (gs.map fun pr => (pr.1, (sortDesc pr.2).take 3))

/-- Wall-clock reading of `datetime.now()`, by calendar components. -/
structure PyDateTime where
  year : Nat
  month : Nat
  day : Nat
  hour : Nat
  minute : Nat
  second : Nat
deriving DecidableEq

/-- Zero-padded two-digit rendering. -/
def pad2 (n : Nat) : String :=
  if n < 10 then "0" ++ toString n else toString n

/-- Zero-padded four-digit rendering. -/
def pad4 (n : Nat) : String :=
  if n < 10 then "000" ++ toString n
  else if n < 100 then "00" ++ toString n
  else if n < 1000 then "0" ++ toString n
  else toString n

/-- The header timestamp `strftime('%Y-%m-%d %H:%M:%S')`. -/
def fmtFull (t : PyDateTime) : String :=
  pad4 t.year ++ "-" ++ pad2 t.month ++ "-" ++ pad2 t.day ++ " " ++
    pad2 t.hour ++ ":" ++ pad2 t.minute ++ ":" ++ pad2 t.second

/-- Lines rendered for one session (lines 321-330 of the source); `hm`
renders a session timestamp as `strftime('%H:%M')` local time. -/
def sessionLines (hm : Int → String) (s : SessionInfo) : List String :=
  ["**最終更新**: " ++ hm s.last_updated, "**プロンプト履歴**:"] ++
    (if s.prompts.isEmpty then ["1. （なし）"]
     else s.prompts.enum.map fun pr => toString (pr.1 + 1) ++ ". " ++ pr.2) ++
    [""]

/-- Lines rendered for one project section (lines 315-330 of the source). -/
def projLines (hm : Int → String) (pr : String × List SessionInfo) : List String :=
  ["---", "", "## " ++ pr.1] ++ pr.2.foldl (fun acc s => acc ++ sessionLines hm s) []

/-- Stable ascending insertion by case-insensitive project key, matching
Python's stable `sorted(..., key=lambda item: item[0].lower())`. -/
def insertAsc (x : String × List SessionInfo) :
    List (String × List SessionInfo) → List (String × List SessionInfo)
  | [] => [x]
  | y :: ys => if x.1.toLower < y.1.toLower then x :: y :: ys else y :: insertAsc x ys

/-- Stable sort of the projects by case-insensitive key (line 310). -/
def sortProjects (l : List (String × List SessionInfo)) :
    List (String × List SessionInfo) :=
  l.foldl (fun acc x => insertAsc x acc) []

/-- The renderer `format_markdown` (lines 294-332 of the source).  The call
to `datetime.now()` is the explicit `now` argument; `hm` renders session
timestamps.  Project keys are strings, as in every non-crashing run (the
sort key applies `str.lower` to them). -/
def format_markdown (now : PyDateTime) (hm : Int → String)
    (sessions : List (String × List SessionInfo)) : String :=
  let header := ["# 🔄 作業状況", "", "*最終更新: " ++ fmtFull now ++ "*", ""]
  if sessions.isEmpty then
    String.intercalate "\n" (header ++ ["アクティブなセッションはありません。"])
  else
    let body := (sortProjects sessions).foldl (fun acc pr => acc ++ projLines hm pr) []
    String.intercalate "\n" (header ++ body)

/-- Result of the filter as the extractor loop sees it: the prompt when the
line is accepted and truthy, `none` when it is rejected; a crashing line also
yields `none` here (it can never contribute a prompt, the loop aborts on it
instead). -/
def okPrompt (maxChars : Nat) (line : Option Json) : Option String :=
  match parse_user_message maxChars line with
  | .ok (some p) => if p = "" then none else some p
  | _ => none

/-- The record a history line contributes when it passes every filter of the
scan: its session id, project and timestamp. -/
def lineRec (env : ScanEnv) : Option Json → Option (Json × Json × Int)
  | some (Json.obj kvs) =>
    let timestamp_ms := jGet kvs "timestamp"
    let project := jGet kvs "project"
    let session_id := jGet kvs "sessionId"
    if !(jTruthy timestamp_ms && jTruthy project && jTruthy session_id) then none
    else
      match jNumVal timestamp_ms with
      | none => none
      | some n =>
        if !env.tsOk n then none
        else if env.dateOf n ≠ env.today then none
        else some (session_id, project, n)
  | _ => none

/-- Whether processing this history line raises an uncaught exception: a
parseable non-object line, or a surviving record whose session id is not
hashable. -/
def lineCrashes (env : ScanEnv) : Option Json → Bool
  | none => false
  | some (Json.obj kvs) =>
    match lineRec env (some (Json.obj kvs)) with
    | some (sid, _, _) => !jHashable sid
    | none => false
  | some _ => true

/-- One dedup decision for a fixed session id: adopt the incoming
(project, timestamp) record when none is held yet or when it is strictly
later than the held one. -/
def dstep (sid : Json) (cur : Option SessionInfo) (pn : Json × Int) : Option SessionInfo :=
  match cur with
  | none => some ⟨sid, pn.1, pn.2, []⟩
  | some old => if pn.2 > old.last_updated then some ⟨sid, pn.1, pn.2, []⟩ else cur

/-- The surviving (project, timestamp) records of a given session id in the
history lines, in file order. -/
def recsFor (env : ScanEnv) (sid : Json) (lines : List (Option Json)) : List (Json × Int) :=
  lines.filterMap fun l =>
    match lineRec env l with
    | some (s, p, n) => if s = sid then some (p, n) else none
    | none => none

/-- A typical user-message log line with the given content. -/
def mkUserLine (content : String) : Option Json :=
  some (jsonObj [("type", .str "user"),
    ("message", jsonObj [("role", .str "user"), ("content", .str content)])])

/-- A typical history log line. -/
def histLine (ts : Int) (project sid : String) : Option Json :=
  some (jsonObj [("timestamp", .num ts), ("project", .str project),
    ("sessionId", .str sid)])

/-- Concrete scan environment for witnesses: timestamps 0-99 fall on the
current date, later ones on later dates; every conversion succeeds. -/
def env0 : ScanEnv :=
  ⟨fun ms => ms / 100, 0, fun _ => true⟩

/-- Two distinct session files sharing the stem `s` and the mtime `1`. -/
def fileA : PFile :=
  ⟨"s", some 1, .content [mkUserLine "hello"] false⟩

/-- Second file with the same stem and mtime as `fileA` but other content. -/
def fileB : PFile :=
  ⟨"s", some 1, .content [mkUserLine "world"] false⟩

/-- A session log with five valid prompts. -/
def lines5 : List (Option Json) :=
  [mkUserLine "p1", mkUserLine "p2", mkUserLine "p3", mkUserLine "p4", mkUserLine "p5"]

/-- Effect of one surviving history record on the dedup map: a new session
id is inserted, an existing one is replaced exactly when the incoming
timestamp is strictly later. -/
def dedupStep (st : List (Json × SessionInfo)) :
    Option (Json × Json × Int) → List (Json × SessionInfo)
  | none => st
  | some (sid, proj, n) =>
    match alistGet st sid with
    | none => alistSet st sid ⟨sid, proj, n, []⟩
    | some old =>
      if n > old.last_updated then alistSet st sid ⟨sid, proj, n, []⟩ else st

theorem alistGet_set_self {κ β : Type} [DecidableEq κ] (l : List (κ × β)) (k : κ) (v : β) :
    alistGet (alistSet l k v) k = some v := by
  induction l with
  | nil => simp [alistSet, alistGet]
  | cons hd tl ih =>
    obtain ⟨k', w⟩ := hd
    by_cases h : k' = k
    · simp [alistSet, alistGet, h]
    · simp [alistSet, alistGet, h, ih]

theorem alistGet_set_ne {κ β : Type} [DecidableEq κ] (l : List (κ × β)) (k k' : κ) (v : β)
    (h : k' ≠ k) : alistGet (alistSet l k v) k' = alistGet l k' := by
  induction l with
  | nil => simp [alistSet, alistGet, Ne.symm h]
  | cons hd tl ih =>
    obtain ⟨k₀, w⟩ := hd
    by_cases h0 : k₀ = k
    · subst h0
      simp [alistSet, alistGet, Ne.symm h]
    · by_cases h1 : k₀ = k'
      · subst h1
        simp [alistSet, alistGet, h0]
      · simp [alistSet, alistGet, h0, h1, ih]

theorem mem_alistSet {κ β : Type} [DecidableEq κ] (l : List (κ × β)) (k : κ) (v : β)
    (x : κ × β) (h : x ∈ alistSet l k v) : x = (k, v) ∨ x ∈ l := by
  induction l with
  | nil => simpa [alistSet] using h
  | cons hd tl ih =>
    obtain ⟨k₀, w⟩ := hd
    by_cases h0 : k₀ = k
    · simp [alistSet, h0] at h
      rcases h with h | h
      · exact Or.inl (by simp [h])
      · exact Or.inr (List.mem_cons_of_mem _ h)
    · simp only [alistSet, if_neg h0, List.mem_cons] at h
      rcases h with h | h
      · exact Or.inr (by simp [h])
      · rcases ih h with h' | h'
        · exact Or.inl h'
        · exact Or.inr (List.mem_cons_of_mem _ h')

theorem alistGet_mem {κ β : Type} [DecidableEq κ] (l : List (κ × β)) (k : κ) (v : β)
    (h : alistGet l k = some v) : (k, v) ∈ l := by
  induction l with
  | nil => simp [alistGet] at h
  | cons hd tl ih =>
    obtain ⟨k₀, w⟩ := hd
    by_cases h0 : k₀ = k
    · subst h0
      simp [alistGet] at h
      simp [h]
    · simp [alistGet, h0] at h
      exact List.mem_cons_of_mem _ (ih h)

theorem mem_insertDesc (x a : SessionInfo) (l : List SessionInfo) :
    a ∈ insertDesc x l ↔ a = x ∨ a ∈ l := by
  induction l with
  | nil => simp [insertDesc]
  | cons y ys ih =>
    by_cases h : x.last_updated > y.last_updated
    · simp only [insertDesc, if_pos h, List.mem_cons]
    · simp only [insertDesc, if_neg h, List.mem_cons, ih]
      tauto

theorem pairwise_insertDesc (x : SessionInfo) (l : List SessionInfo)
    (h : l.Pairwise fun a b => b.last_updated ≤ a.last_updated) :
    (insertDesc x l).Pairwise fun a b => b.last_updated ≤ a.last_updated := by
  induction l with
  | nil => simp [insertDesc]
  | cons y ys ih =>
    rcases List.pairwise_cons.mp h with ⟨hy, hys⟩
    by_cases hgt : x.last_updated > y.last_updated
    · simp only [insertDesc, if_pos hgt]
      refine List.pairwise_cons.mpr ⟨?_, h⟩
      intro z hz
      rcases List.mem_cons.mp hz with hz | hz
      · exact hz ▸ le_of_lt hgt
      · exact le_trans (hy z hz) (le_of_lt hgt)
    · simp only [insertDesc, if_neg hgt]
      refine List.pairwise_cons.mpr ⟨?_, ih hys⟩
      intro z hz
      rcases (mem_insertDesc x z ys).mp hz with hz | hz
      · exact hz ▸ not_lt.mp hgt
      · exact hy z hz

theorem mem_foldl_insertDesc (a : SessionInfo) (l : List SessionInfo) :
    ∀ acc, a ∈ l.foldl (fun acc x => insertDesc x acc) acc → a ∈ l ∨ a ∈ acc := by
  induction l with
  | nil => intro acc h; exact Or.inr h
  | cons y ys ih =>
    intro acc h
    rcases ih (insertDesc y acc) h with h' | h'
    · exact Or.inl (List.mem_cons_of_mem _ h')
    · rcases (mem_insertDesc y a acc).mp h' with h3 | h3
      · exact Or.inl (by simp [h3])
      · exact Or.inr h3

theorem mem_sortDesc (a : SessionInfo) (l : List SessionInfo) (h : a ∈ sortDesc l) :
    a ∈ l := by
  rcases mem_foldl_insertDesc a l [] h with h' | h'
  · exact h'
  · simp at h'

theorem pairwise_foldl_insertDesc (l : List SessionInfo) :
    ∀ acc, acc.Pairwise (fun a b => b.last_updated ≤ a.last_updated) →
      (l.foldl (fun acc x => insertDesc x acc) acc).Pairwise
        fun a b => b.last_updated ≤ a.last_updated := by
  induction l with
  | nil => intro acc h; exact h
  | cons y ys ih =>
    intro acc h
    exact ih _ (pairwise_insertDesc y acc h)

theorem pairwise_sortDesc (l : List SessionInfo) :
    (sortDesc l).Pairwise fun a b => b.last_updated ≤ a.last_updated :=
  pairwise_foldl_insertDesc l [] (by simp)

theorem parse_mkUserLine (maxChars : Nat) (c : String) :
    parse_user_message maxChars (mkUserLine c) =
      .ok (acceptContent maxChars (pyStrip c.data)) := rfl

/-- C2: the renderer is *not* purely a function of the mapping across
wall-clock times — its output depends on the render-time reading only through
the formatted header timestamp, so two runs whose formatted timestamps agree
produce identical documents. -/
theorem C2_render_deterministic (now now' : PyDateTime) (hm : Int → String)
    (sessions : List (String × List SessionInfo)) (h : fmtFull now = fmtFull now') :
    format_markdown now hm sessions = format_markdown now' hm sessions := by
  unfold format_markdown
  rw [h]

/-- C2 witness: the deterministic-render theorem applied at a concrete
mapping and clock reading. -/
theorem C2_render_deterministic_witness :
    format_markdown ⟨2024, 5, 1, 9, 30, 0⟩ (fun _ => "09:00") [("proj", [])] =
      format_markdown ⟨2024, 5, 1, 9, 30, 0⟩ (fun _ => "09:00") [("proj", [])] :=
  C2_render_deterministic ⟨2024, 5, 1, 9, 30, 0⟩ ⟨2024, 5, 1, 9, 30, 0⟩
    (fun _ => "09:00") [("proj", [])] rfl

/-- C2 counterexample: two renders of the same (empty) mapping one second
apart produce different documents — the header timestamp differs — refuting
the claim that the output is identical at whatever wall-clock times the
renders run. -/
theorem C2_counterexample :
    format_markdown ⟨2024, 1, 1, 0, 0, 0⟩ (fun _ => "") [] ≠
      format_markdown ⟨2024, 1, 1, 0, 0, 1⟩ (fun _ => "") [] := by
  decide

/-- C8: the listed rejection checks hold for object records, but a line that
parses to a non-object JSON value (here the line `5`) makes the filter raise
an uncaught `AttributeError` on `data.get("type")` instead of returning
`None`: the model evaluates to the crash outcome at this input. -/
theorem C8_nonobject_crash :
    parse_user_message 300 (some (.num 5)) = .error () := rfl

/-- C9: a session file that cannot be opened yields the empty prompt
sequence together with a logged warning, and no exception escapes. -/
theorem C9_unreadable_empty_warn (maxChars max_prompts : Nat) :
    extract_prompts_from_session maxChars .openFail max_prompts = .ok ([], true) := rfl

/-- C10: a history record whose timestamp, project or sessionId field is
falsy (zero, empty string, or any other falsy value — a missing field reads
as null, which is also falsy) is skipped: the scan state is unchanged, so
the record never produces a SessionRecord. -/
theorem C10_falsy_skip (env : ScanEnv) (st : List (Json × SessionInfo)) (kvs : JsonFields)
    (h : jTruthy (jGet kvs "timestamp") = false ∨ jTruthy (jGet kvs "project") = false ∨
      jTruthy (jGet kvs "sessionId") = false) :
    scanLine env st (some (.obj kvs)) = .ok st := by
  unfold scanLine
  rcases h with h | h | h <;> simp [jGetD, h]

/-- C10 witness: the skip theorem applied to a zero timestamp, an empty
project, an empty sessionId, and a missing timestamp field. -/
theorem C10_falsy_skip_witness :
    scanLine env0 [] (some (.obj (fieldsOf
        [("timestamp", .num 0), ("project", .str "P"), ("sessionId", .str "s")]))) = .ok [] ∧
      scanLine env0 [] (some (.obj (fieldsOf
        [("timestamp", .num 5), ("project", .str ""), ("sessionId", .str "s")]))) = .ok [] ∧
      scanLine env0 [] (some (.obj (fieldsOf
        [("timestamp", .num 5), ("project", .str "P"), ("sessionId", .str "")]))) = .ok [] ∧
      scanLine env0 [] (some (.obj (fieldsOf
        [("project", .str "P"), ("sessionId", .str "s")]))) = .ok [] :=
  ⟨C10_falsy_skip env0 [] _ (Or.inl (by decide)),
   C10_falsy_skip env0 [] _ (Or.inr (Or.inl (by decide))),
   C10_falsy_skip env0 [] _ (Or.inr (Or.inr (by decide))),
   C10_falsy_skip env0 [] _ (Or.inl (by decide))⟩

/-- C1 (amended): the cache is keyed by the file's stem, not its full
identity.  A failed stat returns the empty sequence leaving the cache
unchanged; a stem entry whose stored mtime equals the current one is
returned without extraction; otherwise extraction runs and is stored under
the stem with the current mtime — entries of other stems are untouched, and
an immediately repeated call with the same stem and mtime re-uses the stored
result without extracting again. -/
theorem C1_cache_behavior (maxChars : Nat) (c : Cache) (f : PFile) (N : Nat) :
    (f.stat = none → SessionCache.get_prompts maxChars c f N = .ok ([], c, false)) ∧
      (∀ m ps, f.stat = some m → alistGet c f.stem = some (m, ps) →
        SessionCache.get_prompts maxChars c f N = .ok (ps, c, false)) ∧
      (∀ m ps w, f.stat = some m →
        (∀ ps', alistGet c f.stem ≠ some (m, ps')) →
        extract_prompts_from_session maxChars f.content N = .ok (ps, w) →
        SessionCache.get_prompts maxChars c f N =
            .ok (ps, alistSet c f.stem (m, ps), true) ∧
          (∀ s, s ≠ f.stem → alistGet (alistSet c f.stem (m, ps)) s = alistGet c s) ∧
          (∀ g : PFile, g.stem = f.stem → g.stat = some m →
            SessionCache.get_prompts maxChars (alistSet c f.stem (m, ps)) g N =
              .ok (ps, alistSet c f.stem (m, ps), false))) := by
  refine ⟨?_, ?_, ?_⟩
  · intro h
    simp [SessionCache.get_prompts, h]
  · intro m ps hstat hget
    simp [SessionCache.get_prompts, hstat, hget]
  · intro m ps w hstat hne hex
    refine ⟨?_, ?_, ?_⟩
    · unfold SessionCache.get_prompts
      rw [hstat]
      cases hget : alistGet c f.stem with
      | none => simp [hget, hex]
      | some pr =>
        obtain ⟨cm, cps⟩ := pr
        have hcm : cm ≠ m := by
          intro e
          exact hne cps (by rw [hget, e])
        simp [hget, hcm, hex]
    · intro s hs
      exact alistGet_set_ne c f.stem s (m, ps) hs
    · intro g hstem hgstat
      unfold SessionCache.get_prompts
      rw [hgstat, hstem, alistGet_set_self]
      simp

/-- C1 witness: on an empty cache, a stat-able file is extracted and stored
under its stem with its mtime (third branch of the cache theorem). -/
theorem C1_cache_behavior_witness :
    SessionCache.get_prompts 300 [] fileA 3 =
      .ok (["hello"], [("s", (1, ["hello"]))], true) :=
  ((C1_cache_behavior 300 [] fileA 3).2.2 1 ["hello"] false rfl
    (fun ps' h => by simp [alistGet] at h) rfl).1

/-- C1 counterexample: `fileA` and `fileB` are distinct files (different
contents) sharing the stem `s` and mtime `1`.  After caching `fileA`, the
call on the never-before-seen `fileB` returns `fileA`'s prompts without
invoking extraction — although extraction on `fileB` would yield different
prompts — so distinct files do not map to distinct cache entries and
extraction is not keyed by file identity. -/
theorem C1_counterexample :
    SessionCache.get_prompts 300 [] fileA 3 =
        .ok (["hello"], [("s", (1, ["hello"]))], true) ∧
      SessionCache.get_prompts 300 [("s", (1, ["hello"]))] fileB 3 =
        .ok (["hello"], [("s", (1, ["hello"]))], false) ∧
      extract_prompts_from_session 300 fileB.content 3 = .ok (["world"], false) ∧
      fileA ≠ fileB :=
  ⟨rfl, rfl, rfl, by decide⟩

/-- C3: for content that survives the earlier checks (non-empty after
stripping, no sentinel marker), the filter accepts exactly when the number
of open-tag pattern matches equals the number of close-tag pattern matches
in the stripped content. -/
theorem C3_tag_balance (maxChars : Nat) (c : String)
    (h1 : (pyStrip c.data).isEmpty = false)
    (h2 : skipTags.any (fun t => occursIn t (pyStrip c.data)) = false) :
    (∃ out, parse_user_message maxChars (mkUserLine c) = .ok (some out)) ↔
      countOpenTags (pyStrip c.data) = countCloseTags (pyStrip c.data) := by
  constructor
  · rintro ⟨out, hout⟩
    by_contra hc
    simp [parse_mkUserLine, acceptContent, h1, h2, hc] at hout
  · intro hc
    refine ⟨truncOut maxChars (joinWords (pySplitWs (pyStrip c.data))), ?_⟩
    simp [parse_mkUserLine, acceptContent, h1, h2, hc]

/-- C3 witness: the balance criterion accepts the balanced example and
rejects the unterminated one. -/
theorem C3_tag_balance_witness :
    (∃ out, parse_user_message 300 (mkUserLine "<note>x</note>") = .ok (some out)) ∧
      ¬(∃ out, parse_user_message 300 (mkUserLine "<note>unterminated") = .ok (some out)) := by
  constructor
  · exact (C3_tag_balance 300 "<note>x</note>" (by decide) (by decide)).mpr (by decide)
  · intro h
    exact absurd ((C3_tag_balance 300 "<note>unterminated" (by decide) (by decide)).mp h)
      (by decide)

/-- C7: on accept, the output is the stripped content with every whitespace
run collapsed to one space, truncated to the character cap with an ellipsis
marker when the collapsed result exceeds the cap. -/
theorem C7_normalization (maxChars : Nat) (c : String)
    (h1 : (pyStrip c.data).isEmpty = false)
    (h2 : skipTags.any (fun t => occursIn t (pyStrip c.data)) = false)
    (h3 : countOpenTags (pyStrip c.data) = countCloseTags (pyStrip c.data)) :
    parse_user_message maxChars (mkUserLine c) =
      .ok (some (truncOut maxChars (joinWords (pySplitWs (pyStrip c.data))))) := by
  simp [parse_mkUserLine, acceptContent, h1, h2, h3]

/-- C7 witness: whitespace runs collapse to single spaces, and with cap 10 a
twenty-character input is cut to ten characters plus the ellipsis marker. -/
theorem C7_normalization_witness :
    parse_user_message 300 (mkUserLine "line1\nline2   line3") =
        .ok (some "line1 line2 line3") ∧
      parse_user_message 10 (mkUserLine "aaaaaaaaaaaaaaaaaaaa") =
        .ok (some "aaaaaaaaaa...") := by
  constructor
  · rw [C7_normalization 300 "line1\nline2   line3" (by decide) (by decide) (by decide)]
    rfl
  · rw [C7_normalization 10 "aaaaaaaaaaaaaaaaaaaa" (by decide) (by decide) (by decide)]
    rfl

theorem extractLoop_take (maxChars max_prompts : Nat) (lines : List (Option Json)) :
    ∀ k ps b, extractLoop maxChars max_prompts lines k = .ok (ps, b) →
      ps = (lines.filterMap (okPrompt maxChars)).take (max_prompts - k) := by
  induction lines with
  | nil =>
    intro k ps b h
    simp [extractLoop] at h
    simp [h.1]
  | cons l rest ih =>
    intro k ps b h
    unfold extractLoop at h
    by_cases hk : k ≥ max_prompts
    · rw [if_pos hk] at h
      simp at h
      have hz : max_prompts - k = 0 := by omega
      simp [hz, h.1]
    · rw [if_neg hk] at h
      cases hparse : parse_user_message maxChars l with
      | error e => rw [hparse] at h; exact absurd h (by simp)
      | ok o =>
        rw [hparse] at h
        cases o with
        | none =>
          have := ih k ps b h
          simpa [List.filterMap_cons, okPrompt, hparse] using this
        | some p =>
          dsimp only at h
          by_cases hp : p = ""
          · rw [if_pos hp] at h
            have := ih k ps b h
            simpa [List.filterMap_cons, okPrompt, hparse, hp] using this
          · rw [if_neg hp] at h
            cases hrec : extractLoop maxChars max_prompts rest (k + 1) with
            | error e => rw [hrec] at h; exact absurd h (by simp)
            | ok pr =>
              obtain ⟨ps', b'⟩ := pr
              rw [hrec] at h
              simp at h
              obtain ⟨hps, _⟩ := h
              have hih := ih (k + 1) ps' b' hrec
              have hsub : max_prompts - k = (max_prompts - (k + 1)) + 1 := by omega
              rw [← hps]
              simp [List.filterMap_cons, okPrompt, hparse, hp, hsub, hih]

theorem extractLoop_append (maxChars max_prompts : Nat) (extra : List (Option Json))
    (lines : List (Option Json)) :
    ∀ k ps b, extractLoop maxChars max_prompts lines k = .ok (ps, b) →
      max_prompts - k ≤ (lines.filterMap (okPrompt maxChars)).length →
      ∃ b', extractLoop maxChars max_prompts (lines ++ extra) k = .ok (ps, b') := by
  induction lines with
  | nil =>
    intro k ps b h hlen
    simp [extractLoop] at h
    simp at hlen
    cases extra with
    | nil => exact ⟨false, by simp [extractLoop, h.1]⟩
    | cons e es =>
      refine ⟨true, ?_⟩
      have hk : k ≥ max_prompts := by omega
      simp [extractLoop, if_pos hk, h.1]
  | cons l rest ih =>
    intro k ps b h hlen
    unfold extractLoop at h
    by_cases hk : k ≥ max_prompts
    · rw [if_pos hk] at h
      simp at h
      refine ⟨true, ?_⟩
      simp [List.cons_append, extractLoop, if_pos hk, h.1]
    · rw [if_neg hk] at h
      cases hparse : parse_user_message maxChars l with
      | error e => rw [hparse] at h; exact absurd h (by simp)
      | ok o =>
        rw [hparse] at h
        cases o with
        | none =>
          have hlen' : max_prompts - k ≤ (rest.filterMap (okPrompt maxChars)).length := by
            simpa [List.filterMap_cons, okPrompt, hparse] using hlen
          obtain ⟨b', hb'⟩ := ih k ps b h hlen'
          refine ⟨b', ?_⟩
          simp only [List.cons_append]
          unfold extractLoop
          rw [if_neg hk, hparse]
          exact hb'
        | some p =>
          dsimp only at h
          by_cases hp : p = ""
          · rw [if_pos hp] at h
            have hlen' : max_prompts - k ≤ (rest.filterMap (okPrompt maxChars)).length := by
              simpa [List.filterMap_cons, okPrompt, hparse, hp] using hlen
            obtain ⟨b', hb'⟩ := ih k ps b h hlen'
            refine ⟨b', ?_⟩
            simp only [List.cons_append]
            unfold extractLoop
            rw [if_neg hk, hparse]
            dsimp only
            rw [if_pos hp]
            exact hb'
          · rw [if_neg hp] at h
            cases hrec : extractLoop maxChars max_prompts rest (k + 1) with
            | error e => rw [hrec] at h; exact absurd h (by simp)
            | ok pr =>
              obtain ⟨ps', b0⟩ := pr
              rw [hrec] at h
              simp at h
              obtain ⟨hps, _⟩ := h
              have hlen' : max_prompts - (k + 1) ≤ (rest.filterMap (okPrompt maxChars)).length := by
                have haux := hlen
                simp [List.filterMap_cons, okPrompt, hparse, hp] at haux
                omega
              obtain ⟨b', hb'⟩ := ih (k + 1) ps' b0 hrec hlen'
              refine ⟨b', ?_⟩
              simp only [List.cons_append]
              unfold extractLoop
              rw [if_neg hk, hparse]
              dsimp only
              rw [if_neg hp, hb', ← hps]

/-- C5: whenever the extractor returns, it returns the first accepted
prompts of the file in order — the prefix of length at most N of the
filter's accepted results — and once N prompts can be collected from a
prefix of the file, whatever lines follow never change the outcome. -/
theorem C5_extractor (maxChars max_prompts : Nat) (lines : List (Option Json))
    (midFail : Bool) (ps : List String) (w : Bool)
    (h : extract_prompts_from_session maxChars (.content lines midFail) max_prompts
      = .ok (ps, w)) :
    ps.length ≤ max_prompts ∧
      ps = (lines.filterMap (okPrompt maxChars)).take max_prompts ∧
      (max_prompts ≤ (lines.filterMap (okPrompt maxChars)).length →
        ∀ extra midFail', ∃ w',
          extract_prompts_from_session maxChars (.content (lines ++ extra) midFail')
            max_prompts = .ok (ps, w')) := by
  unfold extract_prompts_from_session at h
  dsimp only at h
  cases hloop : extractLoop maxChars max_prompts lines 0 with
  | error e => rw [hloop] at h; exact absurd h (by simp)
  | ok pr =>
    obtain ⟨ps0, b0⟩ := pr
    rw [hloop] at h
    simp at h
    obtain ⟨hps, hw⟩ := h
    subst hps
    have ht := extractLoop_take maxChars max_prompts lines 0 ps0 b0 hloop
    rw [Nat.sub_zero] at ht
    refine ⟨by rw [ht]; exact List.length_take_le _ _, ht, ?_⟩
    intro hlen extra midFail'
    obtain ⟨b', hb'⟩ := extractLoop_append maxChars max_prompts extra lines 0 ps0 b0 hloop
      (by omega)
    refine ⟨!b' && midFail', ?_⟩
    unfold extract_prompts_from_session
    dsimp only
    rw [hb']

/-- C5 witness: a file with five valid prompts and limit three yields
exactly the first three, and appending further lines changes nothing. -/
theorem C5_extractor_witness :
    extract_prompts_from_session 300 (.content lines5 false) 3 =
        .ok (["p1", "p2", "p3"], false) ∧
      ["p1", "p2", "p3"] = (lines5.filterMap (okPrompt 300)).take 3 ∧
      (∃ w', extract_prompts_from_session 300
        (.content (lines5 ++ [mkUserLine "p6"]) false) 3 = .ok (["p1", "p2", "p3"], w')) := by
  refine ⟨rfl, ?_, ?_⟩
  · exact (C5_extractor 300 3 lines5 false ["p1", "p2", "p3"] false rfl).2.1
  · exact (C5_extractor 300 3 lines5 false ["p1", "p2", "p3"] false rfl).2.2 (by decide)
      [mkUserLine "p6"] false

theorem scanLine_eq (env : ScanEnv) (st : List (Json × SessionInfo)) (l : Option Json)
    (hsafe : lineCrashes env l = false) :
    scanLine env st l = .ok (dedupStep st (lineRec env l)) := by
  cases l with
  | none => rfl
  | some j =>
    cases j with
    | null => simp [lineCrashes] at hsafe
    | bool b => simp [lineCrashes] at hsafe
    | num n => simp [lineCrashes] at hsafe
    | str s' => simp [lineCrashes] at hsafe
    | arr a => simp [lineCrashes] at hsafe
    | obj kvs =>
      unfold lineCrashes at hsafe
      dsimp only at hsafe
      unfold scanLine
      unfold lineRec at hsafe ⊢
      dsimp only [jGetD] at hsafe ⊢
      by_cases h1 : jTruthy (jGet kvs "timestamp") && jTruthy (jGet kvs "project") &&
          jTruthy (jGet kvs "sessionId")
      · simp only [h1, Bool.not_true, Bool.false_eq_true, if_false] at hsafe ⊢
        cases hnum : jNumVal (jGet kvs "timestamp") with
        | none => rfl
        | some n =>
          by_cases h2 : env.tsOk n
          · simp only [hnum, h2, Bool.not_true, Bool.false_eq_true, if_false] at hsafe ⊢
            by_cases h3 : env.dateOf n = env.today
            · simp only [h3, ne_eq, eq_self_iff_true, not_true_eq_false, if_false]
                at hsafe ⊢
              rw [if_neg (by simp [hsafe])]
              unfold dedupStep
              dsimp only
              cases hget : alistGet st (jGet kvs "sessionId") with
              | none => rfl
              | some old =>
                dsimp only
                by_cases h4 : n > old.last_updated
                · rw [if_pos h4, if_pos h4]
                · rw [if_neg h4, if_neg h4]
            · simp only [ne_eq]
              rw [if_pos h3, if_pos h3]
              rfl
          · simp only [hnum, eq_false_of_ne_true h2, Bool.not_false, if_true]
            rfl
      · simp only [eq_false_of_ne_true h1, Bool.not_false, if_true]
        rfl

theorem scanLine_crash (env : ScanEnv) (st : List (Json × SessionInfo)) (l : Option Json)
    (hc : lineCrashes env l = true) : scanLine env st l = .error () := by
  cases l with
  | none => simp [lineCrashes] at hc
  | some j =>
    cases j with
    | null => rfl
    | bool b => rfl
    | num n => rfl
    | str s' => rfl
    | arr a => rfl
    | obj kvs =>
      unfold lineCrashes at hc
      dsimp only at hc
      unfold scanLine
      unfold lineRec at hc
      dsimp only [jGetD] at hc ⊢
      by_cases h1 : jTruthy (jGet kvs "timestamp") && jTruthy (jGet kvs "project") &&
          jTruthy (jGet kvs "sessionId")
      · simp only [h1, Bool.not_true, Bool.false_eq_true, if_false] at hc ⊢
        cases hnum : jNumVal (jGet kvs "timestamp") with
        | none => rw [hnum] at hc; simp at hc
        | some n =>
          by_cases h2 : env.tsOk n
          · simp only [hnum, h2, Bool.not_true, Bool.false_eq_true, if_false] at hc ⊢
            by_cases h3 : env.dateOf n = env.today
            · simp only [h3, ne_eq, eq_self_iff_true, not_true_eq_false, if_false]
                at hc ⊢
              rw [if_pos hc]
            · simp only [ne_eq] at hc ⊢
              rw [if_pos h3] at hc
              simp at hc
          · simp only [hnum, eq_false_of_ne_true h2, Bool.not_false, if_true] at hc
            simp at hc
      · simp only [eq_false_of_ne_true h1, Bool.not_false, if_true] at hc
        simp at hc

theorem scanHist_ok (env : ScanEnv) (lines : List (Option Json)) :
    ∀ st st', scanHist env lines st = .ok st' →
      st' = lines.foldl (fun s l => dedupStep s (lineRec env l)) st := by
  induction lines with
  | nil =>
    intro st st' h
    simp [scanHist] at h
    simp [h]
  | cons l ls ih =>
    intro st st' h
    unfold scanHist at h
    cases hline : scanLine env st l with
    | error e => rw [hline] at h; simp at h
    | ok st1 =>
      rw [hline] at h
      dsimp only at h
      by_cases hc : lineCrashes env l = true
      · rw [scanLine_crash env st l hc] at hline
        simp at hline
      · have heq := scanLine_eq env st l (eq_false_of_ne_true hc)
        rw [hline] at heq
        simp at heq
        rw [List.foldl_cons, ← heq]
        exact ih st1 st' h

theorem lineRec_today (env : ScanEnv) (l : Option Json) (sid proj : Json) (n : Int)
    (h : lineRec env l = some (sid, proj, n)) : env.dateOf n = env.today := by
  cases l with
  | none => simp [lineRec] at h
  | some j =>
    cases j with
    | null => simp [lineRec] at h
    | bool b => simp [lineRec] at h
    | num m => simp [lineRec] at h
    | str s' => simp [lineRec] at h
    | arr a => simp [lineRec] at h
    | obj kvs =>
      unfold lineRec at h
      dsimp only at h
      by_cases h1 : jTruthy (jGet kvs "timestamp") && jTruthy (jGet kvs "project") &&
          jTruthy (jGet kvs "sessionId")
      · simp only [h1, Bool.not_true, Bool.false_eq_true, if_false] at h
        cases hnum : jNumVal (jGet kvs "timestamp") with
        | none => rw [hnum] at h; simp at h
        | some m =>
          by_cases h2 : env.tsOk m
          · simp only [hnum, h2, Bool.not_true, Bool.false_eq_true, if_false] at h
            by_cases h3 : env.dateOf m = env.today
            · simp only [h3, ne_eq, eq_self_iff_true, not_true_eq_false, if_false] at h
              simp at h
              exact h.2.2 ▸ h3
            · simp only [ne_eq] at h
              rw [if_pos h3] at h
              simp at h
          · simp only [hnum, eq_false_of_ne_true h2, Bool.not_false, if_true] at h
            simp at h
      · simp only [eq_false_of_ne_true h1, Bool.not_false, if_true] at h
        simp at h

theorem foldl_dedupStep_today (env : ScanEnv) (lines : List (Option Json)) :
    ∀ st, (∀ kv ∈ st, env.dateOf kv.2.last_updated = env.today) →
      ∀ kv ∈ lines.foldl (fun s l => dedupStep s (lineRec env l)) st,
        env.dateOf kv.2.last_updated = env.today := by
  induction lines with
  | nil => intro st h kv hkv; exact h kv hkv
  | cons l ls ih =>
    intro st h kv hkv
    rw [List.foldl_cons] at hkv
    refine ih (dedupStep st (lineRec env l)) ?_ kv hkv
    intro kv' hkv'
    cases hrec : lineRec env l with
    | none => rw [hrec] at hkv'; exact h kv' hkv'
    | some r =>
      obtain ⟨sid, proj, n⟩ := r
      rw [hrec] at hkv'
      unfold dedupStep at hkv'
      dsimp only at hkv'
      have hn : env.dateOf n = env.today := lineRec_today env l sid proj n hrec
      cases hget : alistGet st sid with
      | none =>
        rw [hget] at hkv'
        rcases mem_alistSet _ _ _ _ hkv' with he | he
        · rw [he]; exact hn
        · exact h kv' he
      | some old =>
        rw [hget] at hkv'
        dsimp only at hkv'
        by_cases h4 : n > old.last_updated
        · rw [if_pos h4] at hkv'
          rcases mem_alistSet _ _ _ _ hkv' with he | he
          · rw [he]; exact hn
          · exact h kv' he
        · rw [if_neg h4] at hkv'
          exact h kv' hkv'

theorem groupProjects_mem (Q : SessionInfo → Prop) :
    ∀ (sess : List SessionInfo) (gs gs' : List (Json × List SessionInfo)),
      groupProjects sess gs = .ok gs' →
      (∀ s ∈ sess, Q s) → (∀ pl ∈ gs, ∀ s ∈ pl.2, Q s) →
      ∀ pl ∈ gs', ∀ s ∈ pl.2, Q s := by
  intro sess
  induction sess with
  | nil =>
    intro gs gs' h hs hgs
    simp [groupProjects] at h
    subst h
    exact hgs
  | cons s rest ih =>
    intro gs gs' h hs hgs
    unfold groupProjects at h
    by_cases hh : !jHashable s.project_path
    · rw [if_pos hh] at h
      simp at h
    · rw [if_neg hh] at h
      have hQs : Q s := hs s (by simp)
      have hrest : ∀ x ∈ rest, Q x := fun x hx => hs x (by simp [hx])
      cases hget : alistGet gs s.project_path with
      | none =>
        rw [hget] at h
        refine ih (gs ++ [(s.project_path, [s])]) gs' h hrest ?_
        intro pl hpl x hx
        rcases List.mem_append.mp hpl with hpl | hpl
        · exact hgs pl hpl x hx
        · simp at hpl
          rw [hpl] at hx
          simp at hx
          rw [hx]
          exact hQs
      | some ll =>
        rw [hget] at h
        refine ih (alistSet gs s.project_path (ll ++ [s])) gs' h hrest ?_
        intro pl hpl x hx
        rcases mem_alistSet _ _ _ _ hpl with hpl | hpl
        · rw [hpl] at hx
          rcases List.mem_append.mp hx with hx | hx
          · exact hgs (s.project_path, ll) (alistGet_mem _ _ _ hget) x hx
          · simp at hx
            rw [hx]
            exact hQs
        · exact hgs pl hpl x hx

/-- C6: in the scanner's output mapping, every project's list holds only
records dated today, has length at most three, and is sorted by timestamp
descending. -/
theorem C6_groups (env : ScanEnv) (h : HistOutcome) (m : List (Json × List SessionInfo))
    (hok : get_today_sessions env h = .ok m) (p : Json) (l : List SessionInfo)
    (hmem : (p, l) ∈ m) :
    l.length ≤ 3 ∧ (∀ s ∈ l, env.dateOf s.last_updated = env.today) ∧
      l.Pairwise (fun a b => b.last_updated ≤ a.last_updated) := by
  cases h with
  | absent =>
    simp [get_today_sessions] at hok
    subst hok
    simp at hmem
  | content lines =>
    unfold get_today_sessions at hok
    dsimp only at hok
    cases hscan : scanHist env lines [] with
    | error e => rw [hscan] at hok; simp at hok
    | ok st =>
      rw [hscan] at hok
      dsimp only at hok
      cases hgrp : groupProjects (st.map Prod.snd) [] with
      | error e => rw [hgrp] at hok; simp at hok
      | ok gs =>
        rw [hgrp] at hok
        simp at hok
        subst hok
        obtain ⟨⟨p0, l0⟩, hpl0, heq⟩ := List.mem_map.mp hmem
        simp at heq
        obtain ⟨hp0, hl0⟩ := heq
        have hst : ∀ kv ∈ st, env.dateOf kv.2.last_updated = env.today := by
          have hfold := scanHist_ok env lines [] st hscan
          rw [hfold]
          exact foldl_dedupStep_today env lines [] (by simp)
        have hsess : ∀ s ∈ st.map Prod.snd, env.dateOf s.last_updated = env.today := by
          intro s hs
          obtain ⟨kv, hkv, hkv2⟩ := List.mem_map.mp hs
          rw [← hkv2]
          exact hst kv hkv
        have hgrpQ := groupProjects_mem (fun s => env.dateOf s.last_updated = env.today)
          (st.map Prod.snd) [] gs hgrp hsess (by simp)
        refine ⟨?_, ?_, ?_⟩
        · rw [← hl0]
          exact List.length_take_le _ _
        · intro s hs
          rw [← hl0] at hs
          have hs1 : s ∈ sortDesc l0 := List.take_subset _ _ hs
          exact hgrpQ (p0, l0) hpl0 s (mem_sortDesc s l0 hs1)
        · rw [← hl0]
          exact (pairwise_sortDesc l0).sublist (List.take_sublist _ _)

/-- C6 witness: a history with four same-day sessions of one project and a
foreign-day session of another collapses to one project group of length
three, dated today, timestamp-descending. -/
theorem C6_groups_witness :
    ([⟨.str "s1", .str "A", 4, []⟩, ⟨.str "s2", .str "A", 3, []⟩,
        ⟨.str "s3", .str "A", 2, []⟩] : List SessionInfo).length ≤ 3 ∧
      (∀ s ∈ ([⟨.str "s1", .str "A", 4, []⟩, ⟨.str "s2", .str "A", 3, []⟩,
          ⟨.str "s3", .str "A", 2, []⟩] : List SessionInfo),
        env0.dateOf s.last_updated = env0.today) ∧
      ([⟨.str "s1", .str "A", 4, []⟩, ⟨.str "s2", .str "A", 3, []⟩,
          ⟨.str "s3", .str "A", 2, []⟩] : List SessionInfo).Pairwise
        (fun a b => b.last_updated ≤ a.last_updated) :=
  C6_groups env0
    (.content [histLine 4 "A" "s1", histLine 3 "A" "s2", histLine 2 "A" "s3",
      histLine 1 "A" "s4", histLine 250 "B" "s5"])
    [(.str "A", [⟨.str "s1", .str "A", 4, []⟩, ⟨.str "s2", .str "A", 3, []⟩,
      ⟨.str "s3", .str "A", 2, []⟩])]
    rfl (.str "A")
    [⟨.str "s1", .str "A", 4, []⟩, ⟨.str "s2", .str "A", 3, []⟩,
      ⟨.str "s3", .str "A", 2, []⟩]
    (by simp)

theorem alistGet_dedupStep_self (st : List (Json × SessionInfo)) (sid proj : Json)
    (n : Int) :
    alistGet (dedupStep st (some (sid, proj, n))) sid =
      dstep sid (alistGet st sid) (proj, n) := by
  unfold dedupStep dstep
  cases hget : alistGet st sid with
  | none =>
    simp only [hget]
    exact alistGet_set_self st sid _
  | some old =>
    simp only [hget]
    by_cases h4 : n > old.last_updated
    · rw [if_pos h4, if_pos h4]
      exact alistGet_set_self st sid _
    · rw [if_neg h4, if_neg h4]
      exact hget

theorem alistGet_dedupStep_other (st : List (Json × SessionInfo)) (sid s' proj : Json)
    (n : Int) (h : sid ≠ s') :
    alistGet (dedupStep st (some (s', proj, n))) sid = alistGet st sid := by
  unfold dedupStep
  cases hget : alistGet st s' with
  | none =>
    simp only [hget]
    exact alistGet_set_ne st s' sid _ h
  | some old =>
    simp only [hget]
    by_cases h4 : n > old.last_updated
    · rw [if_pos h4]
      exact alistGet_set_ne st s' sid _ h
    · rw [if_neg h4]

theorem foldl_dedupStep_get (env : ScanEnv) (sid : Json) (lines : List (Option Json)) :
    ∀ st, alistGet (lines.foldl (fun s l => dedupStep s (lineRec env l)) st) sid =
      (recsFor env sid lines).foldl (dstep sid) (alistGet st sid) := by
  induction lines with
  | nil => intro st; rfl
  | cons l ls ih =>
    intro st
    rw [List.foldl_cons]
    rw [ih (dedupStep st (lineRec env l))]
    cases hrec : lineRec env l with
    | none =>
      have hrecs : recsFor env sid (l :: ls) = recsFor env sid ls := by
        simp [recsFor, List.filterMap_cons, hrec]
      rw [hrecs]
      rfl
    | some r =>
      obtain ⟨s', proj, n⟩ := r
      by_cases hs : s' = sid
      · subst hs
        have hrecs : recsFor env s' (l :: ls) = (proj, n) :: recsFor env s' ls := by
          simp [recsFor, List.filterMap_cons, hrec]
        rw [hrecs, List.foldl_cons, alistGet_dedupStep_self]
      · have hrecs : recsFor env sid (l :: ls) = recsFor env sid ls := by
          simp [recsFor, List.filterMap_cons, hrec, hs]
        rw [hrecs, alistGet_dedupStep_other st sid s' proj n (fun e => hs e.symm)]

theorem dstep_keep (sid proj0 : Json) (n0 : Int) :
    ∀ recs : List (Json × Int), (∀ x ∈ recs, x = (proj0, n0) ∨ x.2 < n0) →
      recs.foldl (dstep sid) (some ⟨sid, proj0, n0, []⟩) = some ⟨sid, proj0, n0, []⟩ := by
  intro recs
  induction recs with
  | nil => intro h; rfl
  | cons x rest ih =>
    intro h
    rw [List.foldl_cons]
    have hx := h x (by simp)
    have hstep : dstep sid (some ⟨sid, proj0, n0, []⟩) x = some ⟨sid, proj0, n0, []⟩ := by
      unfold dstep
      dsimp only
      rcases hx with hx | hx
      · rw [hx]
        rw [if_neg (by simp)]
      · rw [if_neg (by omega)]
    rw [hstep]
    exact ih (fun y hy => h y (by simp [hy]))

theorem dstep_max (sid proj0 : Json) (n0 : Int) :
    ∀ (recs : List (Json × Int)) (init : Option SessionInfo),
      (proj0, n0) ∈ recs →
      (∀ x ∈ recs, x = (proj0, n0) ∨ x.2 < n0) →
      (init = none ∨ ∃ a, init = some a ∧ a.last_updated < n0) →
      recs.foldl (dstep sid) init = some ⟨sid, proj0, n0, []⟩ := by
  intro recs
  induction recs with
  | nil =>
    intro init hm hall hinit
    simp at hm
  | cons x rest ih =>
    intro init hm hall hinit
    rw [List.foldl_cons]
    by_cases hx : x = (proj0, n0)
    · have hstep : dstep sid init x = some ⟨sid, proj0, n0, []⟩ := by
        rw [hx]
        unfold dstep
        rcases hinit with hi | ⟨a, hi, hlt⟩
        · rw [hi]
        · rw [hi]
          dsimp only
          rw [if_pos (by simpa using hlt)]
      rw [hstep]
      exact dstep_keep sid proj0 n0 rest (fun y hy => hall y (by simp [hy]))
    · have hx2 : x.2 < n0 := by
        rcases hall x (by simp) with h | h
        · exact absurd h hx
        · exact h
      have hm' : (proj0, n0) ∈ rest := by
        rcases List.mem_cons.mp hm with h | h
        · exact absurd h.symm hx
        · exact h
      refine ih (dstep sid init x) hm' (fun y hy => hall y (by simp [hy])) ?_
      unfold dstep
      rcases hinit with hi | ⟨a, hi, hlt⟩
      · rw [hi]
        exact Or.inr ⟨⟨sid, x.1, x.2, []⟩, rfl, hx2⟩
      · rw [hi]
        dsimp only
        by_cases h4 : x.2 > a.last_updated
        · rw [if_pos h4]
          exact Or.inr ⟨⟨sid, x.1, x.2, []⟩, rfl, hx2⟩
        · rw [if_neg h4]
          exact Or.inr ⟨a, rfl, hlt⟩

/-- C4 (amended): when a unique surviving record of a session id carries the
strictly latest timestamp, the dedup pass keeps exactly that record for the
id under any permutation of the history lines; the claim as frozen fails in
timestamp ties (see the counterexample), where file order decides. -/
theorem C4_dedup_latest (env : ScanEnv) (lines lines' : List (Option Json))
    (hperm : lines.Perm lines') (sid proj0 : Json) (n0 : Int)
    (hmem : (proj0, n0) ∈ recsFor env sid lines)
    (huniq : ∀ x ∈ recsFor env sid lines, x = (proj0, n0) ∨ x.2 < n0) :
    ∀ st st', scanHist env lines [] = .ok st → scanHist env lines' [] = .ok st' →
      alistGet st sid = some ⟨sid, proj0, n0, []⟩ ∧
        alistGet st' sid = some ⟨sid, proj0, n0, []⟩ := by
  intro st st' h1 h2
  have e1 := scanHist_ok env lines [] st h1
  have e2 := scanHist_ok env lines' [] st' h2
  have hperm' : (recsFor env sid lines).Perm (recsFor env sid lines') :=
    hperm.filterMap _
  constructor
  · rw [e1, foldl_dedupStep_get env sid lines []]
    exact dstep_max sid proj0 n0 _ _ hmem huniq (Or.inl rfl)
  · rw [e2, foldl_dedupStep_get env sid lines' []]
    exact dstep_max sid proj0 n0 _ _ (hperm'.mem_iff.mp hmem)
      (fun x hx => huniq x (hperm'.mem_iff.mpr hx)) (Or.inl rfl)

/-- C4 witness: the id `s` is seen at timestamps 5 (project P1) and 7
(project P2); in either file order, the kept record is P2 at 7. -/
theorem C4_dedup_latest_witness :
    alistGet [((.str "s" : Json), (⟨.str "s", .str "P2", 7, []⟩ : SessionInfo))]
        (.str "s") = some ⟨.str "s", .str "P2", 7, []⟩ ∧
      alistGet [((.str "s" : Json), (⟨.str "s", .str "P2", 7, []⟩ : SessionInfo))]
        (.str "s") = some ⟨.str "s", .str "P2", 7, []⟩ :=
  C4_dedup_latest env0 [histLine 5 "P1" "s", histLine 7 "P2" "s"]
    [histLine 7 "P2" "s", histLine 5 "P1" "s"] (by decide) (.str "s") (.str "P2") 7
    (by decide) (by decide)
    [((.str "s" : Json), (⟨.str "s", .str "P2", 7, []⟩ : SessionInfo))]
    [((.str "s" : Json), (⟨.str "s", .str "P2", 7, []⟩ : SessionInfo))] rfl rfl

/-- C4 counterexample: two same-day records share the session id `s` and the
timestamp 5 but carry different projects; the scanner's output depends on
their order in the file, refuting order-independence of the kept record as
frozen (the tie is broken by first occurrence, not by timestamp). -/
theorem C4_counterexample :
    get_today_sessions env0 (.content [histLine 5 "P1" "s", histLine 5 "P2" "s"]) =
        .ok [(.str "P1", [⟨.str "s", .str "P1", 5, []⟩])] ∧
      get_today_sessions env0 (.content [histLine 5 "P2" "s", histLine 5 "P1" "s"]) =
        .ok [(.str "P2", [⟨.str "s", .str "P2", 5, []⟩])] ∧
      ([(.str "P1", [⟨.str "s", .str "P1", 5, []⟩])] :
          List (Json × List SessionInfo)) ≠
        [(.str "P2", [⟨.str "s", .str "P2", 5, []⟩])] :=
  ⟨rfl, rfl, by decide⟩
